import Mathlib

/-!
# Verification of the SplitTON AI-agent core

Shallow embedding of `src/frontend/attached_assets/aiagent_1760817521641.py`:
the input normalizer (`_preprocess_input`), the validation gate
(`_validate_friends`), the two extraction entry points (`parse_text_input`,
`parse_image_input`) and the dispatcher (`process_transaction`).

The external reasoning capability (the Gemini call) is nondeterministic and
outside the repository; every embedded entry point therefore takes the
capability's schema-validated response as an explicit `response` argument and
models only the code around that call: precondition checks, preprocessing,
validation and pass-through of the result.  Amounts are modelled as `ℚ`
(the code performs no arithmetic on the `float` amounts, so no floating-point
behavior is involved in any embedded path).
-/

namespace SplitTON

deriving instance DecidableEq for Except

/-- The closed category taxonomy (`CategoryEnum` in the source). -/
inductive CategoryEnum where
  | FOOD
  | TRANSPORTATION
  | HOUSING
  | UTILITIES
  | HEALTH
  | ENTERTAINMENT
  | SHOPPING
  | EDUCATION
  | TRAVEL
  | OTHER
deriving DecidableEq, Repr

/-- One extracted obligation (`TransactionInfo` in the source). -/
structure TransactionInfo where
  from_friend : String
  to_friend : String
  item : String
  amount : ℚ
  category : CategoryEnum
deriving DecidableEq, Repr

/-- The extraction result (`ParsedTransactions` in the source). -/
structure ParsedTransactions where
  transactions : List TransactionInfo
  extracted_friends : List String
deriving DecidableEq, Repr

/-- The errors the embedded core can raise.  Each constructor corresponds to
one `raise` site in the source: `invalidFriends` and `noFriendsExtracted` are
the two `ValueError`s of `_validate_friends`, `emptyInput` is the empty-text
check of `parse_text_input`, `missingCaption` the caption check and
`fileNotFound` the image-open failure of `parse_image_input`, and the last
three are the type checks of `process_transaction`. -/
inductive AgentError where
  | emptyInput
  | missingCaption
  | fileNotFound (path : String)
  | invalidFriends (offending : List String) (possible : List String)
  | noFriendsExtracted
  | invalidInputType (t : String)
  | textInputNotString
  | imageInputNotTuple
deriving DecidableEq, Repr

/-! ## Input normalizer (`_preprocess_input`)

The source applies four `re.sub` calls with whole-word, case-insensitive
patterns.  A substitution `re.sub r'\bw\b' repl text (IGNORECASE)`, where `w`
consists only of word characters, replaces exactly the maximal word-character
runs of `text` that case-insensitively equal `w`.  We embed this by splitting
the character list into maximal runs tagged with their class (word / non-word),
substituting whole word runs, and flattening back; the four substitutions are
composed in source order.  `\w` is modelled for the ASCII range
(`[A-Za-z0-9_]`). -/

/-- ASCII model of the regex word-character class `\w`. -/
def isWordChar (c : Char) : Bool :=
  c.isAlphanum || c = '_'

/-- ASCII lowercasing, as `re.IGNORECASE` folds case on ASCII patterns. -/
def lowerChar (c : Char) : Char :=
  if 'A' ≤ c ∧ c ≤ 'Z' then Char.ofNat (c.toNat + 32) else c

/-- Split a character list into maximal runs of equal word-character class,
each tagged with that class (`true` = word run). -/
def tokenize : List Char → List (Bool × List Char)
  | [] => []
  | c :: cs =>
    match tokenize cs with
    | [] => [(isWordChar c, [c])]
    | (b, t) :: rest =>
      if isWordChar c = b then (b, c :: t) :: rest
      else (isWordChar c, [c]) :: (b, t) :: rest

/-- Flatten a tagged run list back into a character list. -/
def flatten (toks : List (Bool × List Char)) : List Char :=
  toks.foldr (fun bt acc => bt.2 ++ acc) []

/-- Flatten a tagged run list back into a string. -/
def detok (toks : List (Bool × List Char)) : String :=
  String.mk (flatten toks)

/-- Well-formed tagged run lists: every run is nonempty, uniformly of its
tag's class, and adjacent runs have different tags.  `tokenize` produces
exactly such lists, and whole-word substitution preserves the shape. -/
def Good : List (Bool × List Char) → Prop
  | [] => True
  | bt :: rest =>
    bt.2 ≠ [] ∧ (∀ c ∈ bt.2, isWordChar c = bt.1) ∧
      (∀ bu ∈ rest.head?, bu.1 ≠ bt.1) ∧ Good rest

/-- Replace every word run that case-insensitively equals the (lowercase)
pattern `w` by the replacement text. -/
def replaceWord (w repl : String) (toks : List (Bool × List Char)) :
    List (Bool × List Char) :=
  toks.map fun bt =>
    if bt.1 = true ∧ bt.2.map lowerChar = w.data then (true, repl.data) else bt

/-- One whole-word, case-insensitive `re.sub` over a string. -/
def reSubWord (w repl : String) (text : String) : String :=
  detok (replaceWord w repl (tokenize text.data))

/-- Embedding of `_preprocess_input`: the four substitutions
`i → You`, `me → You`, `myself → You`, `my → Your`, in source order. -/
def preprocess_input (text : String) : String :=
  reSubWord "my" "Your"
    (reSubWord "myself" "You"
      (reSubWord "me" "You"
        (reSubWord "i" "You" text)))

/-- The single-pass word-level substitution the specification describes:
`I`/`me`/`myself` become `You`, `my` becomes `Your`, case-insensitively, and
every other word is unchanged.  Stated from the spec's words, to be compared
with the sequential-substitution `preprocess_input` embedded from the source. -/
def specWordSubst (s : String) : String :=
  let l := s.data.map lowerChar
  if l = "i".data ∨ l = "me".data ∨ l = "myself".data then "You"
  else if l = "my".data then "Your"
  else s

/-- The set difference `set(extracted_friends) - set(possible_friends)`
computed in `_validate_friends`, represented as a deduplicated list. -/
def invalidFriendsOf (extracted possible : List String) : List String :=
  (extracted.filter (fun f => f ∉ possible)).dedup

/-- Embedding of `_validate_friends`: raise on any extracted name outside the
allowed list (carrying the offending set), then raise on an empty extracted
list; otherwise succeed.  Only `extracted_friends` is inspected. -/
def validate_friends (extracted possible : List String) :
    Except AgentError Unit :=
  if invalidFriendsOf extracted possible ≠ [] then
    .error (.invalidFriends (invalidFriendsOf extracted possible) possible)
  else if extracted = [] then
    .error .noFriendsExtracted
  else
    .ok ()

/-- `not text or not text.strip()`: true exactly when the string has no
non-whitespace character. -/
def isBlank (s : String) : Bool :=
  s.data.all Char.isWhitespace

/-- Embedding of `parse_text_input` around the external call: reject empty or
whitespace-only text (`if not text or not text.strip()`), then validate the
external response's `extracted_friends` and return the response unchanged.
The preprocessing of `text` only feeds the prompt sent to the external
capability, whose answer is the `response` argument. -/
def parse_text_input (text : String) (possible : List String)
    (response : ParsedTransactions) : Except AgentError ParsedTransactions :=
  if isBlank text then .error .emptyInput
  else do
    validate_friends response.extracted_friends possible
    pure response

/-- The image payload as the code observes it: a path, whether `open` would
succeed (`readable`), and whether the bytes are actually a supported still
image — a property of the content that the code never inspects. -/
structure ImageFile where
  path : String
  readable : Bool
  isStillImage : Bool
deriving DecidableEq, Repr

/-- The MIME-type selection of `parse_image_input`: extension-based with a
default of `image/jpeg` for any unrecognized extension. -/
def mimeTypeOf (path : String) : String :=
  let p := path.data.map lowerChar
  if ".png".data.isSuffixOf p then "image/png"
  else if ".gif".data.isSuffixOf p then "image/gif"
  else if ".webp".data.isSuffixOf p then "image/webp"
  else "image/jpeg"

/-- Embedding of `parse_image_input` around the external call: reject an empty
or whitespace-only caption, re-raise `FileNotFoundError` when the image file
cannot be opened, then (the MIME type and encoded bytes only feed the external
call) validate the external response and return it unchanged.  No property of
the image content other than openability is ever checked. -/
def parse_image_input (img : ImageFile) (caption : String)
    (possible : List String) (response : ParsedTransactions) :
    Except AgentError ParsedTransactions :=
  if isBlank caption then .error .missingCaption
  else if !img.readable then .error (.fileNotFound img.path)
  else do
    validate_friends response.extracted_friends possible
    pure response

/-- The dynamic type of `input_data` as `process_transaction` checks it. -/
inductive InputData where
  | text (s : String)
  | image (img : ImageFile) (caption : String)
  | otherValue
deriving DecidableEq, Repr

/-- Embedding of `process_transaction`: dispatch on `input_type`, type-check
`input_data`, and raise `ValueError` naming the invalid `input_type` in the
final `else` branch. -/
def process_transaction (input_type : String) (input_data : InputData)
    (possible : List String) (response : ParsedTransactions) :
    Except AgentError ParsedTransactions :=
  if input_type = "text" then
    match input_data with
    | .text s => parse_text_input s possible response
    | _ => .error .textInputNotString
  else if input_type = "image" then
    match input_data with
    | .image img caption => parse_image_input img caption possible response
    | _ => .error .imageInputNotTuple
  else
    .error (.invalidInputType input_type)

/-! ## Spec-modelled extraction rules

The equal-split and same-category netting rules are not executable code in
the repository: they exist only as prompt text handed to the external
reasoning capability (`parse_text_input` / `parse_image_input` prompts,
`TRANSACTION LOGIC` and `SETTLEMENT/REPAYMENT LOGIC` sections).  The
definitions below are therefore modelled from the spec, not translated from
executable source. -/

/-- Modelled from the spec: the group-split rule (missing as executable code;
present only as prompt text).  "You paid $X for Y and Z and yourself" splits
`X` equally across the `N` named beneficiaries and emits one record
`payer → beneficiary, X/N` for each beneficiary other than the payer; the
payer's own share is not recorded as a debt to themselves. -/
def groupSplit (payer : String) (beneficiaries : List String) (x : ℚ)
    (cat : CategoryEnum) : List TransactionInfo :=
  let n : ℚ := beneficiaries.length
  (beneficiaries.filter (fun b => b ≠ payer)).map
    (fun b => ⟨payer, b, "", x / n, cat⟩)

/-- Modelled from the spec: the netting rule (missing as executable code;
present only as prompt text).  Two obligations between the same ordered or
reversed pair are combined into a single net obligation only if they share the
same category: the net amount is the absolute difference of the directional
totals, directed toward the side with the larger total, and no record is
emitted when the totals are equal.  Obligations in different categories, or
between different pairs, are left unmerged. -/
def netTwo (t u : TransactionInfo) : List TransactionInfo :=
  if t.category = u.category ∧
      ((u.from_friend = t.from_friend ∧ u.to_friend = t.to_friend) ∨
       (u.from_friend = t.to_friend ∧ u.to_friend = t.from_friend)) then
    let fwd : ℚ :=
      t.amount + (if u.from_friend = t.from_friend ∧
        u.to_friend = t.to_friend then u.amount else 0)
    let bwd : ℚ :=
      if u.from_friend = t.from_friend ∧ u.to_friend = t.to_friend then 0
      else u.amount
    if bwd < fwd then
      [⟨t.from_friend, t.to_friend, t.item, fwd - bwd, t.category⟩]
    else if fwd < bwd then
      [⟨t.to_friend, t.from_friend, u.item, bwd - fwd, t.category⟩]
    else []
  else [t, u]

/-! ## Properties of the validation gate -/

theorem mem_invalidFriendsOf (e p : List String) (a : String) :
    a ∈ invalidFriendsOf e p ↔ a ∈ e ∧ a ∉ p := by
  simp [invalidFriendsOf, List.mem_dedup, List.mem_filter]

theorem invalidFriendsOf_eq_nil (e p : List String) :
    invalidFriendsOf e p = [] ↔ ∀ a ∈ e, a ∈ p := by
  constructor
  · intro h a ha
    by_contra hp
    have hmem : a ∈ invalidFriendsOf e p := (mem_invalidFriendsOf e p a).mpr ⟨ha, hp⟩
    rw [h] at hmem
    exact absurd hmem (List.not_mem_nil a)
  · intro h
    rw [List.eq_nil_iff_forall_not_mem]
    intro a hmem
    rcases (mem_invalidFriendsOf e p a).mp hmem with ⟨ha, hp⟩
    exact hp (h a ha)

theorem validate_friends_ok (e p : List String) (h : ∀ a ∈ e, a ∈ p)
    (hne : e ≠ []) : validate_friends e p = .ok () := by
  unfold validate_friends
  rw [(invalidFriendsOf_eq_nil e p).mpr h]
  simp [hne]

theorem validate_friends_invalid (e p : List String) (h : ∃ a ∈ e, a ∉ p) :
    validate_friends e p =
      .error (.invalidFriends (invalidFriendsOf e p) p) := by
  obtain ⟨a, ha, hp⟩ := h
  have hne : invalidFriendsOf e p ≠ [] := by
    intro hnil
    exact hp ((invalidFriendsOf_eq_nil e p).mp hnil a ha)
  simp [validate_friends, hne]

/-! ## Claims -/

/-- C1: For every extraction call (text or image modality), if the extracted
referenced-participant list contains any name outside `possible_friends`, the
call fails with the invalid-participant error carrying exactly the offending
names, and no partial result is returned; if every extracted name is in
`possible_friends` and the list is non-empty, the result passes the validation
gate unchanged.  The final conjunct characterizes the carried offending set:
its members are exactly the extracted names outside the allowed list, so
offending names are never silently filtered out. -/
theorem C1_validation_gate :
    (∀ (text : String) (possible : List String) (response : ParsedTransactions),
      isBlank text = false →
      (∃ a ∈ response.extracted_friends, a ∉ possible) →
      parse_text_input text possible response =
        .error (.invalidFriends
          (invalidFriendsOf response.extracted_friends possible) possible)) ∧
    (∀ (text : String) (possible : List String) (response : ParsedTransactions),
      isBlank text = false →
      (∀ a ∈ response.extracted_friends, a ∈ possible) →
      response.extracted_friends ≠ [] →
      parse_text_input text possible response = .ok response) ∧
    (∀ (img : ImageFile) (caption : String) (possible : List String)
        (response : ParsedTransactions),
      isBlank caption = false → img.readable = true →
      (∃ a ∈ response.extracted_friends, a ∉ possible) →
      parse_image_input img caption possible response =
        .error (.invalidFriends
          (invalidFriendsOf response.extracted_friends possible) possible)) ∧
    (∀ (img : ImageFile) (caption : String) (possible : List String)
        (response : ParsedTransactions),
      isBlank caption = false → img.readable = true →
      (∀ a ∈ response.extracted_friends, a ∈ possible) →
      response.extracted_friends ≠ [] →
      parse_image_input img caption possible response = .ok response) ∧
    (∀ (e p : List String) (a : String),
      a ∈ invalidFriendsOf e p ↔ a ∈ e ∧ a ∉ p) := by
  refine ⟨?_, ?_, ?_, ?_, mem_invalidFriendsOf⟩
  · intro text possible response ht hbad
    simp [parse_text_input, ht,
      validate_friends_invalid response.extracted_friends possible hbad]
  · intro text possible response ht hsub hne
    simp [parse_text_input, ht,
      validate_friends_ok response.extracted_friends possible hsub hne]
  · intro img caption possible response hc hr hbad
    simp [parse_image_input, hc, hr,
      validate_friends_invalid response.extracted_friends possible hbad]
  · intro img caption possible response hc hr hsub hne
    simp [parse_image_input, hc, hr,
      validate_friends_ok response.extracted_friends possible hsub hne]

theorem C1_validation_gate_witness :
    parse_text_input "You paid for Eve" ["You", "Bob"]
        ⟨[], ["You", "Eve"]⟩ =
      .error (.invalidFriends
        (invalidFriendsOf ["You", "Eve"] ["You", "Bob"]) ["You", "Bob"]) ∧
    parse_text_input "You paid for Bob" ["You", "Bob"]
        ⟨[], ["You", "Bob"]⟩ = .ok ⟨[], ["You", "Bob"]⟩ :=
  ⟨C1_validation_gate.1 _ _ _ (by decide) ⟨"Eve", by decide, by decide⟩,
   C1_validation_gate.2.1 _ _ _ (by decide) (by decide) (by decide)⟩

/-- C3 counterexample: on input "Good morning" with the external capability
answering with empty lists — exactly what the prompt instructs for inputs
containing no transaction — the call does not return the empty result: it
raises (`No valid friends extracted from input`), because `_validate_friends`
unconditionally rejects an empty `extracted_friends` list. -/
theorem C3_counterexample :
    parse_text_input "Good morning" ["You", "Bob"] ⟨[], []⟩ =
      .error .noFriendsExtracted := by decide

/-- C3 (amended): for every non-blank input whose extraction yields an empty
referenced-participant list — in particular the empty result the prompt
requests when no transaction can be extracted — the call raises the
no-friends-extracted error instead of returning the empty result; an empty
result is rejected, not valid. -/
theorem C3_amended_empty_rejected :
    ∀ (text : String) (possible : List String) (response : ParsedTransactions),
      isBlank text = false → response.extracted_friends = [] →
      parse_text_input text possible response = .error .noFriendsExtracted := by
  intro t p r ht hr
  simp [parse_text_input, ht, validate_friends, hr, invalidFriendsOf]

theorem C3_amended_empty_rejected_witness :
    parse_text_input "Hello there" ["You", "Bob", "Charlie"] ⟨[], []⟩ =
      .error .noFriendsExtracted :=
  C3_amended_empty_rejected _ _ _ (by decide) (by decide)

/-- C6 counterexample: a response whose transaction record names "Eve" in its
`from` field — a name outside the supplied participant set — passes the
validation gate and is returned, because `_validate_friends` inspects only
`extracted_friends`, never the records' `from`/`to` fields. -/
theorem C6_counterexample :
    parse_text_input "Eve paid for You" ["You", "Bob"]
        ⟨[⟨"Eve", "You", "", 5, .OTHER⟩], ["You"]⟩ =
      .ok ⟨[⟨"Eve", "You", "", 5, .OTHER⟩], ["You"]⟩ ∧
    "Eve" ∉ ["You", "Bob"] := by
  constructor
  · have hb : isBlank "Eve paid for You" = false := by decide
    simp [parse_text_input, hb,
      validate_friends_ok ["You"] ["You", "Bob"] (by decide) (by decide)]
  · decide

/-- C6 (amended): the hard validation failure applies to the
referenced-participant list (`extracted_friends`): any name there outside the
supplied set raises the invalid-participant error.  The `from`/`to` fields of
transaction records are not independently checked: a response whose records
name participants outside the set is still returned unchanged (no error and no
silent drop of the record), provided its `extracted_friends` pass. -/
theorem C6_amended_fields_unchecked :
    (∀ (extracted possible : List String),
      (∃ a ∈ extracted, a ∉ possible) →
      validate_friends extracted possible =
        .error (.invalidFriends (invalidFriendsOf extracted possible) possible)) ∧
    (∀ (text : String) (possible : List String) (response : ParsedTransactions),
      isBlank text = false →
      (∀ a ∈ response.extracted_friends, a ∈ possible) →
      response.extracted_friends ≠ [] →
      (∃ t ∈ response.transactions,
        t.from_friend ∉ possible ∨ t.to_friend ∉ possible) →
      parse_text_input text possible response = .ok response) := by
  constructor
  · intro e p h
    exact validate_friends_invalid e p h
  · intro text possible response ht hsub hne hbadfield
    simp [parse_text_input, ht,
      validate_friends_ok response.extracted_friends possible hsub hne]

theorem C6_amended_fields_unchecked_witness :
    parse_text_input "Eve paid for Bob" ["You", "Bob"]
        ⟨[⟨"Eve", "Bob", "", 5, .OTHER⟩], ["Bob"]⟩ =
      .ok ⟨[⟨"Eve", "Bob", "", 5, .OTHER⟩], ["Bob"]⟩ :=
  C6_amended_fields_unchecked.2 _ _ _ (by decide) (by decide) (by decide)
    ⟨⟨"Eve", "Bob", "", 5, .OTHER⟩, List.mem_singleton_self _,
      Or.inl (by decide)⟩

/-- C7: for image modality, whenever the caption is empty or whitespace-only,
the call fails with the missing-caption error, for every image payload —
readable or not, still image or not — so the failure does not depend on the
image at all. -/
theorem C7_missing_caption :
    ∀ (img : ImageFile) (caption : String) (possible : List String)
      (response : ParsedTransactions),
      isBlank caption = true →
      parse_image_input img caption possible response =
        .error .missingCaption := by
  intro img caption p r h
  simp [parse_image_input, h]

theorem C7_missing_caption_witness :
    parse_image_input ⟨"a.png", true, true⟩ "" ["You"] ⟨[], ["You"]⟩ =
        .error .missingCaption ∧
    parse_image_input ⟨"b.xyz", false, false⟩ "   " ["You"] ⟨[], ["You"]⟩ =
        .error .missingCaption :=
  ⟨C7_missing_caption _ _ _ _ (by decide),
   C7_missing_caption _ _ _ _ (by decide)⟩

/-- C8 counterexample: with a non-empty caption and a readable payload that is
not a supported still image (a text file), the call succeeds instead of
failing with an unreadable-image error — the code never inspects the content
and has no such error at all. -/
theorem C8_counterexample :
    parse_image_input ⟨"notes.txt", true, false⟩ "You paid for Bob"
        ["You", "Bob"] ⟨[], ["You", "Bob"]⟩ =
      .ok ⟨[], ["You", "Bob"]⟩ := by
  have hb : isBlank "You paid for Bob" = false := by decide
  simp [parse_image_input, hb,
    validate_friends_ok ["You", "Bob"] ["You", "Bob"] (by decide) (by decide)]

/-- C8 (amended): with a non-empty caption, the only payload check is that the
image file can be opened: an unopenable file fails with `FileNotFoundError`
(re-raised), while for a readable file the outcome is independent of whether
the content is a supported still image; unrecognized extensions merely default
the MIME type to `image/jpeg`. -/
theorem C8_amended_unreadable :
    (∀ (img : ImageFile) (caption : String) (possible : List String)
      (response : ParsedTransactions),
      isBlank caption = false → img.readable = false →
      parse_image_input img caption possible response =
        .error (.fileNotFound img.path)) ∧
    (∀ (path caption : String) (s₁ s₂ : Bool) (possible : List String)
      (response : ParsedTransactions),
      parse_image_input ⟨path, true, s₁⟩ caption possible response =
        parse_image_input ⟨path, true, s₂⟩ caption possible response) ∧
    mimeTypeOf "notes.txt" = "image/jpeg" := by
  refine ⟨?_, ?_, by decide⟩
  · intro img c p r hc hr
    simp [parse_image_input, hc, hr]
  · intro path c s₁ s₂ p r
    rfl

theorem C8_amended_unreadable_witness :
    parse_image_input ⟨"missing.png", false, true⟩ "dinner" ["You"]
        ⟨[], ["You"]⟩ = .error (.fileNotFound "missing.png") :=
  C8_amended_unreadable.1 _ _ _ _ (by decide) (by decide)

/-- C9 counterexample: a response containing a record of amount 0 — not a
strictly positive value — passes the validation gate and is returned
unchanged: the code never inspects record amounts. -/
theorem C9_counterexample :
    parse_text_input "Bob owes You nothing" ["You", "Bob"]
        ⟨[⟨"You", "Bob", "", 0, .OTHER⟩], ["You", "Bob"]⟩ =
      .ok ⟨[⟨"You", "Bob", "", 0, .OTHER⟩], ["You", "Bob"]⟩ ∧
    ¬ (0 < (0 : ℚ)) := by
  constructor
  · have hb : isBlank "Bob owes You nothing" = false := by decide
    simp [parse_text_input, hb,
      validate_friends_ok ["You", "Bob"] ["You", "Bob"] (by decide) (by decide)]
  · exact lt_irrefl 0

/-- C9 (amended): the core does not validate amounts: a response whose
records include a non-positive amount still passes the validation gate and is
returned unchanged, provided its `extracted_friends` pass.  Positivity of
amounts is only requested of the external capability, never enforced. -/
theorem C9_amended_amounts_unchecked :
    ∀ (text : String) (possible : List String) (response : ParsedTransactions),
      isBlank text = false →
      (∀ a ∈ response.extracted_friends, a ∈ possible) →
      response.extracted_friends ≠ [] →
      (∃ t ∈ response.transactions, t.amount ≤ 0) →
      parse_text_input text possible response = .ok response := by
  intro text possible response ht hsub hne hnonpos
  simp [parse_text_input, ht,
    validate_friends_ok response.extracted_friends possible hsub hne]

theorem C9_amended_amounts_unchecked_witness :
    parse_text_input "Bob owes You zero" ["You", "Bob"]
        ⟨[⟨"You", "Bob", "", 0, .OTHER⟩], ["You", "Bob"]⟩ =
      .ok ⟨[⟨"You", "Bob", "", 0, .OTHER⟩], ["You", "Bob"]⟩ :=
  C9_amended_amounts_unchecked _ _ _ (by decide) (by decide) (by decide)
    ⟨⟨"You", "Bob", "", 0, .OTHER⟩, List.mem_singleton_self _, le_refl 0⟩

/-- C10: for every `input_type` other than "text" or "image",
`process_transaction` fails with a `ValueError` naming the invalid
`input_type`; the result is the same for every `input_data`, participant list
and external response, so neither normalization nor the external reasoning
capability is involved. -/
theorem C10_invalid_input_type :
    ∀ (input_type : String), input_type ≠ "text" → input_type ≠ "image" →
      ∀ (input_data : InputData) (possible : List String)
        (response : ParsedTransactions),
        process_transaction input_type input_data possible response =
          .error (.invalidInputType input_type) := by
  intro it h1 h2 d p r
  simp [process_transaction, h1, h2]

theorem C10_invalid_input_type_witness :
    process_transaction "audio" (.text "hi") ["You"] ⟨[], []⟩ =
      .error (.invalidInputType "audio") :=
  C10_invalid_input_type "audio" (by decide) (by decide) _ _ _

theorem filter_ne_eq_self (payer : String) (bs : List String)
    (h : payer ∉ bs) : bs.filter (fun b => b ≠ payer) = bs := by
  induction bs with
  | nil => rfl
  | cons a t ih =>
    have ha : a ≠ payer := fun he => h (he ▸ List.mem_cons_self a t)
    have ht : payer ∉ t := fun hm => h (List.mem_cons_of_mem a hm)
    simp [List.filter_cons, ha]
    intro b hb he
    exact ht (he ▸ hb)

theorem length_filter_ne (payer : String) (bs : List String)
    (hnd : bs.Nodup) (hm : payer ∈ bs) :
    (bs.filter (fun b => b ≠ payer)).length = bs.length - 1 := by
  induction bs with
  | nil => cases hm
  | cons a t ih =>
    rcases List.mem_cons.mp hm with he | hmt
    · subst he
      have hnotin : payer ∉ t := (List.nodup_cons.mp hnd).1
      simp [List.filter_cons]
      intro b hb he
      exact hnotin (he ▸ hb)
    · have ha : a ≠ payer := fun he => (List.nodup_cons.mp hnd).1 (he ▸ hmt)
      have hlen := ih (List.nodup_cons.mp hnd).2 hmt
      have hpos : 1 ≤ t.length :=
        List.length_pos.mpr (List.ne_nil_of_mem hmt)
      simp [List.filter_cons, ha] at hlen ⊢
      omega

/-- C4: for the spec-modelled group-split rule (present in the repository only
as prompt text): splitting $X across N distinct named beneficiaries that
include the payer yields exactly N−1 records, each `payer → beneficiary` of
amount X/N for a beneficiary other than the payer, and no record from the
payer to themselves; in particular $90 for Bob, Charlie and yourself yields
exactly You→Bob: $30 and You→Charlie: $30. -/
theorem C4_group_split :
    (∀ (payer : String) (bs : List String) (x : ℚ) (cat : CategoryEnum),
      bs.Nodup → payer ∈ bs →
      ((groupSplit payer bs x cat).length = bs.length - 1 ∧
       ∀ r ∈ groupSplit payer bs x cat,
         r.from_friend = payer ∧ r.to_friend ∈ bs ∧ r.to_friend ≠ payer ∧
           r.amount = x / (bs.length : ℚ))) ∧
    groupSplit "You" ["Bob", "Charlie", "You"] 90 .OTHER =
      [⟨"You", "Bob", "", 30, .OTHER⟩, ⟨"You", "Charlie", "", 30, .OTHER⟩] := by
  constructor
  · intro payer bs x cat hnd hm
    constructor
    · simpa [groupSplit] using length_filter_ne payer bs hnd hm
    · intro r hr
      simp only [groupSplit, List.mem_map, List.mem_filter] at hr
      obtain ⟨b, ⟨hb, hbp⟩, rfl⟩ := hr
      simp at hbp
      exact ⟨rfl, hb, hbp, rfl⟩
  · show groupSplit "You" ["Bob", "Charlie", "You"] 90 .OTHER = _
    simp only [groupSplit]
    norm_num
    rfl

theorem C4_group_split_witness :
    (["Bob", "Charlie", "You"] : List String).Nodup ∧
    (groupSplit "You" ["Bob", "Charlie", "You"] 90 .OTHER).length =
      (["Bob", "Charlie", "You"] : List String).length - 1 :=
  ⟨by decide, (C4_group_split.1 "You" ["Bob", "Charlie", "You"] 90 .OTHER
      (by decide) (by decide)).1⟩

/-- C2: for the spec-modelled same-category netting rule (present in the
repository only as prompt text): two obligations between the same ordered or
reversed pair sharing a category net to a single record whose amount is the
absolute difference of the directional totals, directed toward the larger
side; equal totals net to no record; obligations between the same pair in
different categories are never merged. -/
theorem C2_netting :
    (∀ (A B : String) (c : CategoryEnum) (x y : ℚ) (it iu : String),
      A ≠ B →
      ((y < x → netTwo ⟨A, B, it, x, c⟩ ⟨B, A, iu, y, c⟩ =
          [⟨A, B, it, x - y, c⟩]) ∧
       (x < y → netTwo ⟨A, B, it, x, c⟩ ⟨B, A, iu, y, c⟩ =
          [⟨B, A, iu, y - x, c⟩]) ∧
       (x = y → netTwo ⟨A, B, it, x, c⟩ ⟨B, A, iu, y, c⟩ = []))) ∧
    (∀ (A B : String) (c : CategoryEnum) (x y : ℚ) (it iu : String),
      0 < x → 0 < y →
      netTwo ⟨A, B, it, x, c⟩ ⟨A, B, iu, y, c⟩ = [⟨A, B, it, x + y, c⟩]) ∧
    (∀ (A B : String) (c d : CategoryEnum) (x y : ℚ) (it iu : String),
      c ≠ d →
      netTwo ⟨A, B, it, x, c⟩ ⟨B, A, iu, y, d⟩ =
        [⟨A, B, it, x, c⟩, ⟨B, A, iu, y, d⟩]) := by
  refine ⟨?_, ?_, ?_⟩
  · intro A B c x y it iu hAB
    have hBA : B ≠ A := hAB.symm
    refine ⟨?_, ?_, ?_⟩
    · intro hyx
      simp [netTwo, hBA, hyx]
    · intro hxy
      simp [netTwo, hBA, hxy, not_lt.mpr (le_of_lt hxy)]
    · intro hxy
      simp [netTwo, hBA, hxy]
  · intro A B c x y it iu hx hy
    have hsum : (0 : ℚ) < x + y := add_pos hx hy
    simp [netTwo, hsum]
  · intro A B c d x y it iu hcd
    simp [netTwo, hcd]

theorem C2_netting_witness :
    netTwo ⟨"You", "Bob", "", 100, .FOOD⟩ ⟨"Bob", "You", "", 20, .FOOD⟩ =
        [⟨"You", "Bob", "", 100 - 20, .FOOD⟩] ∧
    netTwo ⟨"You", "Bob", "", 50, .FOOD⟩ ⟨"Bob", "You", "", 50, .FOOD⟩ = [] ∧
    netTwo ⟨"You", "Bob", "", 100, .FOOD⟩ ⟨"Bob", "You", "", 20, .SHOPPING⟩ =
        [⟨"You", "Bob", "", 100, .FOOD⟩, ⟨"Bob", "You", "", 20, .SHOPPING⟩] :=
  ⟨(C2_netting.1 "You" "Bob" .FOOD 100 20 "" "" (by decide)).1 (by decide),
   (C2_netting.1 "You" "Bob" .FOOD 50 50 "" "" (by decide)).2.2 rfl,
   C2_netting.2.2 "You" "Bob" .FOOD .SHOPPING 100 20 "" "" (by decide)⟩

/-! ## Tokenizer roundtrip: `tokenize` after `detok` of a well-formed run
list is the identity, so the four sequential string-level substitutions of
`_preprocess_input` compose at the token level. -/

theorem tokenize_cons_eq (c : Char) (cs : List Char) :
    tokenize (c :: cs) =
      match tokenize cs with
      | [] => [(isWordChar c, [c])]
      | (b, t) :: rest =>
        if isWordChar c = b then (b, c :: t) :: rest
        else (isWordChar c, [c]) :: (b, t) :: rest := rfl

theorem tokenize_cons_head (c : Char) (cs : List Char) :
    ∃ t rest, tokenize (c :: cs) = (isWordChar c, t) :: rest := by
  rw [tokenize_cons_eq]
  cases htc : tokenize cs with
  | nil => exact ⟨[c], [], rfl⟩
  | cons bt rest =>
    obtain ⟨b, t⟩ := bt
    by_cases hb : isWordChar c = b
    · exact ⟨c :: t, rest, by simp [hb]⟩
    · exact ⟨[c], (b, t) :: rest, by simp [hb]⟩

theorem tokenize_run_append (b : Bool) (t cs : List Char) (ht : t ≠ [])
    (hall : ∀ c ∈ t, isWordChar c = b)
    (hcs : ∀ d ∈ cs.head?, isWordChar d ≠ b) :
    tokenize (t ++ cs) = (b, t) :: tokenize cs := by
  induction t with
  | nil => exact absurd rfl ht
  | cons c t' ih =>
    have hc : isWordChar c = b := hall c (List.mem_cons_self c t')
    cases t' with
    | nil =>
      simp only [List.cons_append, List.nil_append]
      cases cs with
      | nil => simp [tokenize, hc]
      | cons d ds =>
        obtain ⟨t2, r2, h2⟩ := tokenize_cons_head d ds
        have hd : isWordChar d ≠ b := hcs d rfl
        have hne : isWordChar c ≠ isWordChar d := by
          intro he
          exact hd (by rw [← he, hc])
        have hbd : ¬b = isWordChar d := fun he => hd he.symm
        rw [tokenize_cons_eq, h2]
        simp [hne, hc, hbd]
    | cons e t'' =>
      have ih' := ih (by simp)
        (fun x hx => hall x (List.mem_cons_of_mem c hx))
      simp only [List.cons_append] at ih' ⊢
      rw [tokenize_cons_eq, ih']
      simp [hc]

theorem good_tokenize (cs : List Char) : Good (tokenize cs) := by
  induction cs with
  | nil => simp [tokenize, Good]
  | cons c cs ih =>
    rw [tokenize_cons_eq]
    cases htc : tokenize cs with
    | nil => simp [Good]
    | cons bt rest =>
      rw [htc] at ih
      obtain ⟨b, t⟩ := bt
      simp only [Good] at ih
      obtain ⟨ht, hall, hhead, hrest⟩ := ih
      by_cases hb : isWordChar c = b
      · simp only [if_pos hb]
        simp only [Good]
        refine ⟨by simp, ?_, ?_, hrest⟩
        · intro x hx
          rcases List.mem_cons.mp hx with rfl | hx
          · exact hb
          · exact hall x hx
        · exact hhead
      · simp only [if_neg hb]
        simp only [Good]
        refine ⟨by simp, ?_, ?_, ht, hall, hhead, hrest⟩
        · intro x hx
          rcases List.mem_cons.mp hx with rfl | hx
          · rfl
          · exact absurd hx (List.not_mem_nil x)
        · intro bu hbu
          simp only [List.head?_cons, Option.mem_def, Option.some.injEq] at hbu
          rw [← hbu]
          exact fun he => hb he.symm

theorem flatten_head_class (bt : Bool × List Char) (r : List (Bool × List Char))
    (hne : bt.2 ≠ []) (hall : ∀ c ∈ bt.2, isWordChar c = bt.1) :
    ∀ d ∈ (flatten (bt :: r)).head?, isWordChar d = bt.1 := by
  intro d hd
  cases h2 : bt.2 with
  | nil => exact absurd h2 hne
  | cons x xs =>
    have hh : (flatten (bt :: r)).head? = some x := by
      simp [flatten, h2]
    rw [hh] at hd
    simp only [Option.mem_def, Option.some.injEq] at hd
    rw [← hd]
    exact hall x (h2 ▸ List.mem_cons_self x xs)

theorem tokenize_flatten (L : List (Bool × List Char)) (h : Good L) :
    tokenize (flatten L) = L := by
  induction L with
  | nil => rfl
  | cons bt rest ih =>
    simp only [Good] at h
    obtain ⟨hne, hall, hhead, hrest⟩ := h
    have hflat : flatten (bt :: rest) = bt.2 ++ flatten rest := rfl
    rw [hflat]
    have hcond : ∀ d ∈ (flatten rest).head?, isWordChar d ≠ bt.1 := by
      intro d hd
      cases rest with
      | nil => simp [flatten] at hd
      | cons bu r =>
        simp only [Good] at hrest
        obtain ⟨hne', hall', _, _⟩ := hrest
        have hclass := flatten_head_class bu r hne' hall' d hd
        have hbu : bu.1 ≠ bt.1 := hhead bu (by simp)
        rw [hclass]
        exact hbu
    rw [tokenize_run_append bt.1 bt.2 (flatten rest) hne hall hcond, ih hrest]

theorem good_replaceWord (w repl : String) (hne : repl.data ≠ [])
    (hall : ∀ c ∈ repl.data, isWordChar c = true)
    (L : List (Bool × List Char)) (h : Good L) :
    Good (replaceWord w repl L) := by
  induction L with
  | nil => simp [replaceWord, Good]
  | cons bt rest ih =>
    simp only [Good] at h
    obtain ⟨hbne, hball, hhead, hrest⟩ := h
    simp only [replaceWord, List.map_cons]
    simp only [Good]
    have htag : ∀ bu : Bool × List Char,
        ((if bu.1 = true ∧ bu.2.map lowerChar = w.data then (true, repl.data)
          else bu) : Bool × List Char).1 = bu.1 := by
      intro bu
      by_cases hc : bu.1 = true ∧ bu.2.map lowerChar = w.data
      · simp [hc, hc.1]
      · simp [hc]
    refine ⟨?_, ?_, ?_, ?_⟩
    · by_cases hc : bt.1 = true ∧ bt.2.map lowerChar = w.data
      · simpa [hc] using hne
      · simpa [hc] using hbne
    · by_cases hc : bt.1 = true ∧ bt.2.map lowerChar = w.data
      · intro x hx
        simp only [if_pos hc] at hx ⊢
        rw [hall x hx]
      · simp only [if_neg hc]
        exact hball
    · intro bu hbu
      cases rest with
      | nil => simp at hbu
      | cons bv r =>
        simp only [List.map_cons, List.head?_cons, Option.mem_def,
          Option.some.injEq] at hbu
        rw [← hbu, htag bv, htag bt]
        exact hhead bv (by simp)
    · have := ih hrest
      simpa [replaceWord] using this

theorem tokenize_reSubWord (w repl text : String) (hne : repl.data ≠ [])
    (hall : ∀ c ∈ repl.data, isWordChar c = true) :
    tokenize (reSubWord w repl text).data =
      replaceWord w repl (tokenize text.data) := by
  show tokenize (flatten (replaceWord w repl (tokenize text.data))) = _
  exact tokenize_flatten _
    (good_replaceWord w repl hne hall _ (good_tokenize _))

/-- C5: the normalizer is a total function performing whole-word,
case-insensitive substitution `I`/`me`/`myself` → `You` and `my` → `Your`:
on every input it acts tokenwise — each maximal word-character run is mapped
through the single-pass spec substitution (so every other word, including
substrings such as "him" and "main", is unchanged) and every non-word run is
kept verbatim — and it maps "I paid for my friend" to
"You paid for Your friend". -/
theorem C5_normalizer :
    (∀ text : String, preprocess_input text =
      detok ((tokenize text.data).map (fun bt =>
        if bt.1 = true then (true, (specWordSubst (String.mk bt.2)).data)
        else bt))) ∧
    preprocess_input "I paid for my friend" = "You paid for Your friend" ∧
    preprocess_input "him main i2 Maine mesh" = "him main i2 Maine mesh" := by
  refine ⟨?_, by decide, by decide⟩
  intro text
  have h1 := tokenize_reSubWord "i" "You" text (by decide) (by decide)
  have h2 := tokenize_reSubWord "me" "You" (reSubWord "i" "You" text)
    (by decide) (by decide)
  have h3 := tokenize_reSubWord "myself" "You"
    (reSubWord "me" "You" (reSubWord "i" "You" text)) (by decide) (by decide)
  have key : preprocess_input text =
      detok (replaceWord "my" "Your" (replaceWord "myself" "You"
        (replaceWord "me" "You" (replaceWord "i" "You"
          (tokenize text.data))))) := by
    show detok (replaceWord "my" "Your" (tokenize (reSubWord "myself" "You"
      (reSubWord "me" "You" (reSubWord "i" "You" text))).data)) = _
    rw [h3, h2, h1]
  rw [key]
  simp only [replaceWord, List.map_map]
  congr 1
  refine List.map_congr_left ?_
  intro bt hmem
  simp only [Function.comp]
  obtain ⟨b, t⟩ := bt
  have nYou_me : ("You".data).map lowerChar ≠ "me".data := by decide
  have nYou_myself : ("You".data).map lowerChar ≠ "myself".data := by decide
  have nYou_my : ("You".data).map lowerChar ≠ "my".data := by decide
  by_cases hb : b = true
  · subst hb
    by_cases hi : t.map lowerChar = "i".data
    · simp [hi, specWordSubst, nYou_me, nYou_myself, nYou_my]
    · by_cases hme : t.map lowerChar = "me".data
      · simp [hi, hme, specWordSubst, nYou_myself, nYou_my]
      · by_cases hms : t.map lowerChar = "myself".data
        · simp [hi, hme, hms, specWordSubst, nYou_my]
        · by_cases hmy : t.map lowerChar = "my".data
          · simp [hi, hme, hms, hmy, specWordSubst]
          · simp [hi, hme, hms, hmy, specWordSubst]
  · simp [hb]

end SplitTON
